import Mathlib

/- Verification of the ledger aggregation and reporting engine of
   `src/app.js` (business-finance web app).

   Modelling conventions of the shallow embedding:
   * JavaScript numbers are modelled as exact rationals (`ℚ`); the engine
     only adds and subtracts field values, and every numeric field is read
     through `safeNum`.
   * A JavaScript value sitting in a numeric field is modelled by `JVal`:
     either its `Number(...)` coercion is a finite rational, or it is
     non-finite / non-numeric (`NaN`, `±Infinity`, objects, ...).
   * A JavaScript `Map` is modelled by `JMap`, an insertion-ordered
     association list: `set` on a present key updates it in place, on an
     absent key appends; `values()` iterates in list order.
   * Nullable string fields (`partyType`, `partyId`, `category`) are
     `Option String`; the JS falsiness test `!x` on such a field holds for
     `null`/`undefined` (`none`) and for the empty string (`some ""`).
-/

namespace App

/-- A JavaScript value read from a numeric field: either `Number(v)` is the
finite number `q`, or it is not a finite number. -/
inductive JVal where
  | fin (q : ℚ)
  | nonfin
deriving DecidableEq

/-- Transcribes `safeNum` (app.js:18-21): `Number(v)` if finite, else `0`. -/
def safeNum : JVal → ℚ
  | .fin q => q
  | .nonfin => 0

/-- A client or vendor record (`app.js` defaultState comment, party form). -/
structure Party where
  id : String
  name : String
  phone : String
  address : String
  openingBalance : JVal
  notes : String
deriving DecidableEq

/-- A unified ledger row:
`{id,date,type,partyType,partyId,ref,desc,category,amount,paid,method}`. -/
structure Entry where
  id : String
  date : String
  type : String
  partyType : Option String
  partyId : Option String
  ref : String
  desc : String
  category : Option String
  amount : JVal
  paid : JVal
  method : String
deriving DecidableEq

/-- The record store snapshot read by the calculation core (the core never
reads `company` or `users`). -/
structure St where
  clients : List Party
  vendors : List Party
  ledger : List Entry
deriving DecidableEq

/-- JS falsiness of a nullable string (`!x`): null/undefined or `""`. -/
def falsy (o : Option String) : Prop := o = none ∨ o = some ""

instance (o : Option String) : Decidable (falsy o) := by
  unfold falsy; infer_instance

/-- Transcribes `partyName` (app.js:160-164):
`(list.find(x => x.id === partyId) || {}).name || "-"` with a falsiness
guard on both arguments. -/
def partyName (st : St) (partyType partyId : Option String) : String :=
  if falsy partyType ∨ falsy partyId then "-"
  else
    let pid := partyId.getD ""
    let list := if partyType = some "client" then st.clients else st.vendors
    match list.find? (fun x => x.id == pid) with
    | some p => if p.name = "" then "-" else p.name
    | none => "-"

/-- Transcribes `openingBalance` (app.js:166-171); its in-repo callers pass
plain strings, for which JS falsiness is emptiness. A missing party gives
`safeNum(undefined) = 0`. -/
def openingBalance (st : St) (partyType partyId : String) : ℚ :=
  if partyType = "" ∨ partyId = "" then 0
  else
    let list := if partyType = "client" then st.clients else st.vendors
    match list.find? (fun x => x.id == partyId) with
    | some p => safeNum p.openingBalance
    | none => 0

/-- The five running sums accumulated by the `for` loop of `totals`
(app.js:174-181). -/
structure Flows where
  sales : ℚ
  purchases : ℚ
  expenses : ℚ
  cashIn : ℚ
  cashOut : ℚ
deriving DecidableEq

/-- One iteration of the `totals` loop: five independent `if`s, each adding
`safeNum(t.amount)` to its accumulator when the type tag matches. -/
def flowStep (a : Flows) (t : Entry) : Flows :=
  let a1 := if t.type = "sale" then { a with sales := a.sales + safeNum t.amount } else a
  let a2 := if t.type = "purchase" then { a1 with purchases := a1.purchases + safeNum t.amount } else a1
  let a3 := if t.type = "expense" then { a2 with expenses := a2.expenses + safeNum t.amount } else a2
  let a4 := if t.type = "cash_in" then { a3 with cashIn := a3.cashIn + safeNum t.amount } else a3
  if t.type = "cash_out" then { a4 with cashOut := a4.cashOut + safeNum t.amount } else a4

/-- Transcribes `sumPaid` (app.js:191-195): filter by type, reduce adding
`safeNum(t.paid)` from `0`. -/
def sumPaid (st : St) (ty : String) : ℚ :=
  (st.ledger.filter (fun t => t.type == ty)).foldl (fun a t => a + safeNum t.paid) 0

/-- Transcribes `purchasesByCategory` (app.js:197-201): purchases whose
`(t.category || "")` equals `cat`, summing `safeNum(t.amount)`. -/
def purchasesByCategory (st : St) (cat : String) : ℚ :=
  (st.ledger.filter (fun t => t.type == "purchase" && t.category.getD "" == cat)).foldl
    (fun a t => a + safeNum t.amount) 0

/-- A JavaScript `Map` from party ids to running balances, as an
insertion-ordered association list. -/
abbrev JMap := List (String × ℚ)

/-- `Map.get`: the value at the first (unique) matching key, if present. -/
def mget (m : JMap) (k : String) : Option ℚ :=
  (m.find? (fun p => p.1 == k)).map (fun p => p.2)

/-- `Map.set`: update a present key in place, append an absent one. -/
def mset (m : JMap) (k : String) (v : ℚ) : JMap :=
  if (m.find? (fun p => p.1 == k)).isSome then
    m.map (fun p => if p.1 == k then (k, v) else p)
  else m ++ [(k, v)]

/-- `for (const v of map.values()) total += v` starting from `0`. -/
def sumValues (m : JMap) : ℚ := m.foldl (fun a p => a + p.2) 0

/-- One iteration of the `calcReceivables` ledger loop (app.js:206-211):
skip entries not client-tagged or with a falsy `partyId`; read the current
balance once (`?? 0`), then two independent `if`s call `set`. -/
def recvStep (m : JMap) (t : Entry) : JMap :=
  if t.partyType ≠ some "client" ∨ falsy t.partyId then m
  else
    let pid := t.partyId.getD ""
    let cur := (mget m pid).getD 0
    let m1 := if t.type = "sale" then mset m pid (cur + safeNum t.amount - safeNum t.paid) else m
    if t.type = "cash_in" then mset m1 pid (cur - safeNum t.amount) else m1

/-- Transcribes `calcReceivables` (app.js:203-216): seed the map with each
client's `safeNum(openingBalance)`, scan the ledger, total the values. -/
def calcReceivables (st : St) : ℚ :=
  sumValues (st.ledger.foldl recvStep
    (st.clients.foldl (fun m c => mset m c.id (safeNum c.openingBalance)) []))

/-- One iteration of the `calcPayables` ledger loop (app.js:221-226),
vendor-tagged with `purchase`/`cash_out` in place of `sale`/`cash_in`. -/
def payStep (m : JMap) (t : Entry) : JMap :=
  if t.partyType ≠ some "vendor" ∨ falsy t.partyId then m
  else
    let pid := t.partyId.getD ""
    let cur := (mget m pid).getD 0
    let m1 := if t.type = "purchase" then mset m pid (cur + safeNum t.amount - safeNum t.paid) else m
    if t.type = "cash_out" then mset m1 pid (cur - safeNum t.amount) else m1

/-- Transcribes `calcPayables` (app.js:218-231). -/
def calcPayables (st : St) : ℚ :=
  sumValues (st.ledger.foldl payStep
    (st.vendors.foldl (fun m c => mset m c.id (safeNum c.openingBalance)) []))

/-- The record returned by `totals()` (app.js:173-189). -/
structure TotalsR where
  sales : ℚ
  purchases : ℚ
  cogs : ℚ
  expenses : ℚ
  cashIn : ℚ
  cashOut : ℚ
  cash : ℚ
  receivable : ℚ
  payable : ℚ
  profit : ℚ
deriving DecidableEq

/-- Transcribes `totals` (app.js:173-189). -/
def totals (st : St) : TotalsR :=
  let f := st.ledger.foldl flowStep ⟨0, 0, 0, 0, 0⟩
  let cash := (sumPaid st "sale" + f.cashIn) - (sumPaid st "purchase" + f.expenses + f.cashOut)
  let receivable := calcReceivables st
  let payable := calcPayables st
  let cogs := purchasesByCategory st "COGS"
  let profit := f.sales - cogs - f.expenses
  { sales := f.sales, purchases := f.purchases, cogs := cogs, expenses := f.expenses,
    cashIn := f.cashIn, cashOut := f.cashOut, cash := cash,
    receivable := receivable, payable := payable, profit := profit }

/-- The record returned by `cashFlow()` (app.js:250-257). -/
structure CashFlowR where
  cashFromSales : ℚ
  cashToSuppliers : ℚ
  cashToExpenses : ℚ
  net : ℚ
deriving DecidableEq

/-- Transcribes `cashFlow` (app.js:250-257). -/
def cashFlow (st : St) : CashFlowR :=
  let cashFromSales := sumPaid st "sale" +
    (st.ledger.filter (fun t => t.type == "cash_in")).foldl (fun a t => a + safeNum t.amount) 0
  let cashToSuppliers := sumPaid st "purchase" +
    (st.ledger.filter (fun t => t.type == "cash_out")).foldl (fun a t => a + safeNum t.amount) 0
  let cashToExpenses :=
    (st.ledger.filter (fun t => t.type == "expense")).foldl (fun a t => a + safeNum t.amount) 0
  let net := cashFromSales - cashToSuppliers - cashToExpenses
  { cashFromSales := cashFromSales, cashToSuppliers := cashToSuppliers,
    cashToExpenses := cashToExpenses, net := net }

/-- The record returned by `balanceSheet()` (app.js:233-248). -/
structure BalanceSheetR where
  assets : List (String × ℚ)
  liabilities : List (String × ℚ)
  equity : ℚ
  totalAssets : ℚ
  totalLiab : ℚ
deriving DecidableEq

/-- Transcribes `balanceSheet` (app.js:233-248). -/
def balanceSheet (st : St) : BalanceSheetR :=
  let t := totals st
  let assets := [("Cash", t.cash), ("Accounts Receivable (Clients)", t.receivable)]
  let liabilities := [("Accounts Payable (Vendors)", t.payable)]
  let totalAssets := assets.foldl (fun a x => a + x.2) 0
  let totalLiab := liabilities.foldl (fun a x => a + x.2) 0
  { assets := assets, liabilities := liabilities, equity := totalAssets - totalLiab,
    totalAssets := totalAssets, totalLiab := totalLiab }

/-- Transcribes `calcPartyBalance` (app.js:435-449): any `kind` other than
`"client"` is treated as vendor; start from `openingBalance`, scan entries
whose `partyType` and `partyId` both match by strict equality. -/
def calcPartyBalance (st : St) (kind : String) (id : String) : ℚ :=
  let partyType := if kind = "client" then "client" else "vendor"
  st.ledger.foldl
    (fun bal t =>
      if t.partyType ≠ some partyType ∨ t.partyId ≠ some id then bal
      else if partyType = "client" then
        let b1 := if t.type = "sale" then bal + safeNum t.amount - safeNum t.paid else bal
        if t.type = "cash_in" then b1 - safeNum t.amount else b1
      else
        let b1 := if t.type = "purchase" then bal + safeNum t.amount - safeNum t.paid else bal
        if t.type = "cash_out" then b1 - safeNum t.amount else b1)
    (openingBalance st partyType id)

/-- Transcribes the party delete handler (app.js:501-508):
`findIndex` + `splice(idx, 1)` removes the first party whose id matches,
leaving the ledger untouched. -/
def deleteParty (st : St) (kind : String) (id : String) : St :=
  if kind = "client" then { st with clients := st.clients.eraseP (fun x => x.id == id) }
  else { st with vendors := st.vendors.eraseP (fun x => x.id == id) }

/-- The `company` object of a snapshot. -/
structure Company where
  name : String
  currency : String
  fiscalYearStartMonth : Int
deriving DecidableEq

/-- A row of the `users` array of a snapshot. -/
structure User where
  username : String
  password : String
  role : String
deriving DecidableEq

/-- A parsed JSON snapshot as seen at the import boundary: each top-level
key may be absent (or null), modelled as `none`. -/
structure RawSnap where
  company : Option Company
  users : Option (List User)
  clients : Option (List Party)
  vendors : Option (List Party)
  ledger : Option (List Entry)
deriving DecidableEq

/-- Transcribes the validation and state swap of `importData`
(app.js:1019-1036): `if (!obj.company || !obj.users || !obj.ledger) throw
new Error("Invalid file")` — on failure the caught error is alerted and the
in-memory state stays `cur`; on success the whole object replaces it. -/
def importData (cur : RawSnap) (obj : RawSnap) : RawSnap × Option String :=
  if obj.company = none ∨ obj.users = none ∨ obj.ledger = none then
    (cur, some "Invalid file")
  else (obj, none)

/-! Spec-side formalisations (worded from the specification, to be compared
with the transcribed code above). -/

/-- Spec §4.3: sum of `amount` over entries of the matching `type`. -/
def sumAmountEntries (st : St) (ty : String) : ℚ :=
  ((st.ledger.filter (fun t => t.type == ty)).map (fun t => safeNum t.amount)).sum

/-- Spec §4.3 / §4.4: sum of `paid` over entries of the matching `type`. -/
def sumPaidEntries (st : St) (ty : String) : ℚ :=
  ((st.ledger.filter (fun t => t.type == ty)).map (fun t => safeNum t.paid)).sum

/-- Spec §4.3: sum of `amount` over `purchase` entries whose `category`
equals exactly the literal string `"COGS"` (missing category excluded). -/
def cogsSpecSum (st : St) : ℚ :=
  ((st.ledger.filter (fun t => t.type == "purchase" && t.category == some "COGS")).map
    (fun t => safeNum t.amount)).sum

/-- Spec §4.2: the contribution of one ledger entry to the balance of the
party `(pt, i)` — `+(amount − paid)` for the credit type, `−amount` for the
cash type, `0` otherwise or on any mismatch. -/
def partyContrib (pt i : String) (t : Entry) : ℚ :=
  if t.partyType = some pt ∧ t.partyId = some i then
    (if pt = "client" then
      (if t.type = "sale" then safeNum t.amount - safeNum t.paid else 0)
        + (if t.type = "cash_in" then -safeNum t.amount else 0)
     else
      (if t.type = "purchase" then safeNum t.amount - safeNum t.paid else 0)
        + (if t.type = "cash_out" then -safeNum t.amount else 0))
  else 0

/-- Spec §4.2 (claim C4): the party's `openingBalance` (`0` if the party is
not found) plus the matching entries' contributions. -/
def specPartyBalance (st : St) (kind i : String) : ℚ :=
  let pt := if kind = "client" then "client" else "vendor"
  (match (if pt = "client" then st.clients else st.vendors).find? (fun x => x.id == i) with
    | some p => safeNum p.openingBalance
    | none => 0)
    + (st.ledger.map (partyContrib pt i)).sum

/-- The net amount a single entry adds to a client-side balance scan. -/
def entryClientDelta (t : Entry) : ℚ :=
  (if t.type = "sale" then safeNum t.amount - safeNum t.paid else 0)
    + (if t.type = "cash_in" then -safeNum t.amount else 0)

/-- The net amount a single entry adds to a vendor-side balance scan. -/
def entryVendorDelta (t : Entry) : ℚ :=
  (if t.type = "purchase" then safeNum t.amount - safeNum t.paid else 0)
    + (if t.type = "cash_out" then -safeNum t.amount else 0)

/-- The net effect of one entry on the value total of the
`calcReceivables` map. -/
def recvDelta (t : Entry) : ℚ :=
  if t.partyType = some "client" ∧ ¬ falsy t.partyId then entryClientDelta t else 0

/-- The net effect of one entry on the value total of the
`calcPayables` map. -/
def payDelta (t : Entry) : ℚ :=
  if t.partyType = some "vendor" ∧ ¬ falsy t.partyId then entryVendorDelta t else 0

/-- An entry that is client-tagged with a truthy `partyId` matching no
client in the store (a dangling reference, spec §7). -/
def danglingClient (st : St) (t : Entry) : Bool :=
  decide (t.partyType = some "client" ∧ ¬ falsy t.partyId ∧
    ∀ c ∈ st.clients, some c.id ≠ t.partyId)

/-- An entry that is vendor-tagged with a truthy `partyId` matching no
vendor in the store. -/
def danglingVendor (st : St) (t : Entry) : Bool :=
  decide (t.partyType = some "vendor" ∧ ¬ falsy t.partyId ∧
    ∀ v ∈ st.vendors, some v.id ≠ t.partyId)

/-- Replace a numeric field by the finite number `safeNum` reads from it
(spec §3: every numeric read coerces invalid/absent values to `0`). -/
def normNum (v : JVal) : JVal := .fin (safeNum v)

/-- Normalise the numeric field of a party. -/
def normParty (p : Party) : Party := { p with openingBalance := normNum p.openingBalance }

/-- Normalise the numeric fields of an entry. -/
def normEntry (t : Entry) : Entry := { t with amount := normNum t.amount, paid := normNum t.paid }

/-- Normalise every numeric field of a snapshot. -/
def normSt (st : St) : St :=
  ⟨st.clients.map normParty, st.vendors.map normParty, st.ledger.map normEntry⟩

/-! Concrete snapshots used by witnesses and counterexamples. -/

/-- A well-formed snapshot: one client, one vendor, five entries of the
five types, all references resolving. -/
def stOk : St :=
  ⟨[⟨"c1", "Ali", "", "", .fin 10, ""⟩],
   [⟨"v1", "Best Cement", "", "", .fin 20, ""⟩],
   [⟨"t1", "2024-01-01", "sale", some "client", some "c1", "S-1", "", some "Sales", .fin 100, .fin 40, "Cash"⟩,
    ⟨"t2", "2024-01-02", "cash_in", some "client", some "c1", "R-1", "", some "Receipt", .fin 30, .fin 30, "Cash"⟩,
    ⟨"t3", "2024-01-03", "purchase", some "vendor", some "v1", "P-1", "", some "COGS", .fin 200, .fin 50, "Cash"⟩,
    ⟨"t4", "2024-01-04", "cash_out", some "vendor", some "v1", "Y-1", "", some "Payment", .fin 70, .fin 70, "Cash"⟩,
    ⟨"t5", "2024-01-05", "expense", none, none, "E-1", "", some "Fuel", .fin 15, .fin 15, "Cash"⟩]⟩

/-- A snapshot whose only entry is client-tagged with a `partyId` that
matches no client (a dangling reference), used against claim C2. -/
def stDangle : St :=
  ⟨[], [], [⟨"t1", "2024-01-01", "sale", some "client", some "x", "", "", some "Sales", .fin 100, .fin 0, "Cash"⟩]⟩

/-- A snapshot with one client that is referenced by a partially paid sale,
used against claim C3 (the client is then deleted). -/
def stC3 : St :=
  ⟨[⟨"x", "Gone", "", "", .fin 5, ""⟩], [],
   [⟨"t1", "2024-01-01", "sale", some "client", some "x", "", "", some "Sales", .fin 100, .fin 40, "Cash"⟩]⟩

/-- A snapshot holding a client whose id is the empty string, used against
claim C4 (the lookup's falsiness guard fires before `openingBalance`). -/
def stEmptyId : St :=
  ⟨[⟨"", "Anon", "", "", .fin 5, ""⟩], [], []⟩

/-- A sale entry carrying the non-null but empty `partyId` `""`. -/
def eEmptyPid : Entry :=
  ⟨"t1", "2024-01-01", "sale", some "client", some "", "", "", some "Sales", .fin 100, .fin 0, "Cash"⟩

/-- A snapshot whose only entry carries the non-null but empty `partyId`
`""`, used against claim C10 (the scan skips falsy ids). -/
def stEmptyPid : St := ⟨[], [], [eEmptyPid]⟩

/-- A snapshot with resolving and dangling references mixed, used as the
witness input for claim C10. -/
def stMix : St :=
  ⟨[⟨"c1", "Ali", "", "", .fin 10, ""⟩],
   [⟨"v1", "Best Cement", "", "", .fin 20, ""⟩],
   [⟨"t1", "2024-01-01", "sale", some "client", some "c1", "", "", some "Sales", .fin 100, .fin 40, "Cash"⟩,
    ⟨"t2", "2024-01-02", "sale", some "client", some "ghost", "", "", some "Sales", .fin 50, .fin 10, "Cash"⟩,
    ⟨"t3", "2024-01-03", "cash_out", some "vendor", some "gone", "", "", some "Payment", .fin 30, .fin 30, "Cash"⟩]⟩

/-- A snapshot with two clients, two vendors and no ledger entries, used as
the witness input for claim C9. -/
def stNoLedger : St :=
  ⟨[⟨"c1", "Ali", "", "", .fin 10, ""⟩, ⟨"c2", "Bano", "", "", .fin 25, ""⟩],
   [⟨"v1", "Best Cement", "", "", .fin 20, ""⟩],
   []⟩

/-- A parsed snapshot that has `company`, `users` and `ledger` but is
missing `clients` and `vendors`, used against claim C8. -/
def rawNoClients : RawSnap :=
  ⟨some ⟨"My Business", "PKR", 7⟩, some [⟨"admin", "admin123", "admin"⟩], none, none, some []⟩

/-- An arbitrary current state for exercising `importData`. -/
def rawCur : RawSnap :=
  ⟨some ⟨"Old", "PKR", 7⟩, some [], some [], some [], some []⟩

/-! Generic folding and summation lemmas. -/

theorem foldl_proj {α β : Type _} (p : α → ℚ) (f : α → β → α) (g : β → ℚ)
    (hstep : ∀ a b, p (f a b) = p a + g b) :
    ∀ (l : List β) (a : α), p (l.foldl f a) = p a + (l.map g).sum := by
  intro l
  induction l with
  | nil => intro a; simp
  | cons x xs ih =>
    intro a
    simp only [List.foldl_cons, List.map_cons, List.sum_cons]
    rw [ih, hstep]
    ring

theorem foldl_add_eq {β : Type _} (g : β → ℚ) (l : List β) (a : ℚ) :
    l.foldl (fun acc b => acc + g b) a = a + (l.map g).sum :=
  foldl_proj id (fun acc b => acc + g b) g (fun _ _ => rfl) l a

theorem sum_map_add_distrib {β : Type _} (f g : β → ℚ) (l : List β) :
    (l.map (fun b => f b + g b)).sum = (l.map f).sum + (l.map g).sum := by
  induction l with
  | nil => simp
  | cons x xs ih =>
    simp only [List.map_cons, List.sum_cons, ih]
    ring

theorem sum_map_swap {α β : Type _} (l1 : List α) (l2 : List β) (f : α → β → ℚ) :
    (l1.map (fun a => (l2.map (f a)).sum)).sum
      = (l2.map (fun b => (l1.map (fun a => f a b)).sum)).sum := by
  induction l1 with
  | nil => simp
  | cons x xs ih =>
    simp only [List.map_cons, List.sum_cons, ih]
    exact (sum_map_add_distrib (fun b => f x b)
      (fun b => (xs.map (fun a => f a b)).sum) l2).symm

theorem sum_filter_ite {β : Type _} (p : β → Bool) (g : β → ℚ) (l : List β) :
    ((l.filter p).map g).sum = (l.map (fun b => if p b then g b else 0)).sum := by
  induction l with
  | nil => simp
  | cons x xs ih => cases hx : p x <;> simp [List.filter_cons, hx, ih]

/-! Lemmas about the JavaScript map model. -/

theorem sumValues_eq (m : JMap) : sumValues m = (m.map Prod.snd).sum := by
  simpa [sumValues] using foldl_add_eq Prod.snd m 0

theorem mset_absent {m : JMap} {k : String} (h : m.find? (fun p => p.1 == k) = none)
    (v : ℚ) : mset m k v = m ++ [(k, v)] := by
  simp [mset, h]

theorem mset_cons_ne {q : String × ℚ} {rest : JMap} {k : String} (h : (q.1 == k) = false)
    (v : ℚ) : mset (q :: rest) k v = q :: mset rest k v := by
  have hf : List.find? (fun p => p.1 == k) (q :: rest)
      = List.find? (fun p => p.1 == k) rest := by
    rw [List.find?_cons]
    simp [h]
  by_cases hs : (List.find? (fun p => p.1 == k) rest).isSome
  · simp only [mset, hf, hs, if_pos, List.map_cons]
    have hq : (if q.1 == k then (k, v) else q) = q := by simp [h]
    rw [hq]
  · simp [mset, hf, hs]

theorem mget_cons_ne {q : String × ℚ} {rest : JMap} {k : String} (h : (q.1 == k) = false) :
    mget (q :: rest) k = mget rest k := by
  unfold mget
  rw [List.find?_cons]
  simp [h]

theorem keys_mset (m : JMap) (k : String) (v : ℚ) :
    (mset m k v).map Prod.fst = m.map Prod.fst
      ∨ (mset m k v).map Prod.fst = m.map Prod.fst ++ [k] := by
  unfold mset
  by_cases hs : (List.find? (fun p => p.1 == k) m).isSome
  · left
    simp only [hs, if_pos, List.map_map]
    refine List.map_eq_map_iff.mpr (fun p _ => ?_)
    by_cases hpk : (p.1 == k) = true
    · simp [hpk, eq_of_beq hpk]
    · simp [Function.comp, hpk]
  · right
    simp [hs]

theorem nodup_keys_mset {m : JMap} (k : String) (v : ℚ)
    (h : (m.map Prod.fst).Nodup) : ((mset m k v).map Prod.fst).Nodup := by
  rcases keys_mset m k v with hk | hk
  · rw [hk]; exact h
  · rw [hk]
    have hnone : List.find? (fun p => p.1 == k) m = none := by
      by_contra hne
      have hs : (List.find? (fun p => p.1 == k) m).isSome := Option.ne_none_iff_isSome.mp hne
      unfold mset at hk
      rw [if_pos hs] at hk
      have hlen := congrArg List.length hk
      simp at hlen
    have hk_not : k ∉ m.map Prod.fst := by
      intro hmem
      rcases List.mem_map.mp hmem with ⟨p, hp, hpk⟩
      have := List.find?_eq_none.mp hnone p hp
      simp [hpk] at this
    exact List.nodup_append.mpr ⟨h, List.nodup_singleton k,
      by intro a ha hb; simp at hb; subst hb; exact hk_not ha⟩

theorem sumValues_mset (m : JMap) (k : String) (v : ℚ) (h : (m.map Prod.fst).Nodup) :
    sumValues (mset m k v) = sumValues m - (mget m k).getD 0 + v := by
  induction m with
  | nil =>
    rw [mset_absent (by simp)]
    simp [sumValues_eq, mget]
  | cons q rest ih =>
    by_cases hqk : (q.1 == k) = true
    · have hkq : q.1 = k := eq_of_beq hqk
      have hs : (List.find? (fun p => p.1 == k) (q :: rest)).isSome := by
        rw [List.find?_cons]
        simp [hqk]
      have hknotin : k ∉ rest.map Prod.fst := by
        have := h
        rw [List.map_cons, List.nodup_cons] at this
        rw [← hkq]
        exact this.1
      have hmap : rest.map (fun p => if p.1 == k then (k, v) else p) = rest := by
        refine (List.map_eq_map_iff.mpr (fun p hp => ?_)).trans rest.map_id
        have : (p.1 == k) = false := by
          by_contra hcon
          have : (p.1 == k) = true := by
            cases hb : (p.1 == k)
            · exact absurd hb hcon
            · rfl
          exact hknotin (List.mem_map.mpr ⟨p, hp, eq_of_beq this⟩)
        simp [this]
      have hget : mget (q :: rest) k = some q.2 := by
        unfold mget
        rw [List.find?_cons]
        simp [hqk]
      unfold mset
      rw [if_pos hs, hget]
      simp only [List.map_cons, hqk, if_pos, hmap]
      simp [sumValues_eq]
      ring
    · have hqk' : (q.1 == k) = false := by
        cases hb : (q.1 == k)
        · rfl
        · exact absurd hb hqk
      have htail : (rest.map Prod.fst).Nodup := by
        rw [List.map_cons, List.nodup_cons] at h
        exact h.2
      rw [mset_cons_ne hqk', mget_cons_ne hqk']
      have := ih htail
      simp [sumValues_eq] at this ⊢
      rw [this]
      ring

/-! Step and fold lemmas for the receivable/payable scans. -/

theorem recvStep_keys_nodup {m : JMap} (t : Entry) (h : (m.map Prod.fst).Nodup) :
    ((recvStep m t).map Prod.fst).Nodup := by
  unfold recvStep
  by_cases hskip : t.partyType ≠ some "client" ∨ falsy t.partyId
  · simpa [hskip] using h
  · simp only [if_neg hskip]
    by_cases hsale : t.type = "sale" <;> by_cases hin : t.type = "cash_in" <;>
      simp [hsale, hin, nodup_keys_mset, h]

theorem sumValues_recvStep {m : JMap} (t : Entry) (h : (m.map Prod.fst).Nodup) :
    sumValues (recvStep m t) = sumValues m + recvDelta t := by
  unfold recvStep recvDelta entryClientDelta
  by_cases hskip : t.partyType ≠ some "client" ∨ falsy t.partyId
  · have hneg : ¬(t.partyType = some "client" ∧ ¬ falsy t.partyId) := by tauto
    simp [hskip, hneg]
  · have hpos : t.partyType = some "client" ∧ ¬ falsy t.partyId := by tauto
    simp only [if_neg hskip, if_pos hpos]
    by_cases hsale : t.type = "sale" <;> by_cases hin : t.type = "cash_in"
    · rw [hsale] at hin; simp at hin
    · simp [hsale, hin]
      rw [sumValues_mset _ _ _ h]
      ring
    · simp [hsale, hin]
      rw [sumValues_mset _ _ _ h]
      ring
    · simp [hsale, hin]

theorem payStep_keys_nodup {m : JMap} (t : Entry) (h : (m.map Prod.fst).Nodup) :
    ((payStep m t).map Prod.fst).Nodup := by
  unfold payStep
  by_cases hskip : t.partyType ≠ some "vendor" ∨ falsy t.partyId
  · simpa [hskip] using h
  · simp only [if_neg hskip]
    by_cases hsale : t.type = "purchase" <;> by_cases hin : t.type = "cash_out" <;>
      simp [hsale, hin, nodup_keys_mset, h]

theorem sumValues_payStep {m : JMap} (t : Entry) (h : (m.map Prod.fst).Nodup) :
    sumValues (payStep m t) = sumValues m + payDelta t := by
  unfold payStep payDelta entryVendorDelta
  by_cases hskip : t.partyType ≠ some "vendor" ∨ falsy t.partyId
  · have hneg : ¬(t.partyType = some "vendor" ∧ ¬ falsy t.partyId) := by tauto
    simp [hskip, hneg]
  · have hpos : t.partyType = some "vendor" ∧ ¬ falsy t.partyId := by tauto
    simp only [if_neg hskip, if_pos hpos]
    by_cases hsale : t.type = "purchase" <;> by_cases hin : t.type = "cash_out"
    · rw [hsale] at hin; simp at hin
    · simp [hsale, hin]
      rw [sumValues_mset _ _ _ h]
      ring
    · simp [hsale, hin]
      rw [sumValues_mset _ _ _ h]
      ring
    · simp [hsale, hin]

theorem sumValues_foldl_recvStep :
    ∀ (l : List Entry) (m : JMap), (m.map Prod.fst).Nodup →
      sumValues (l.foldl recvStep m) = sumValues m + (l.map recvDelta).sum := by
  intro l
  induction l with
  | nil => intro m _; simp
  | cons t ts ih =>
    intro m h
    simp only [List.foldl_cons, List.map_cons, List.sum_cons]
    rw [ih _ (recvStep_keys_nodup t h), sumValues_recvStep t h]
    ring

theorem sumValues_foldl_payStep :
    ∀ (l : List Entry) (m : JMap), (m.map Prod.fst).Nodup →
      sumValues (l.foldl payStep m) = sumValues m + (l.map payDelta).sum := by
  intro l
  induction l with
  | nil => intro m _; simp
  | cons t ts ih =>
    intro m h
    simp only [List.foldl_cons, List.map_cons, List.sum_cons]
    rw [ih _ (payStep_keys_nodup t h), sumValues_payStep t h]
    ring

theorem initMap_eq :
    ∀ (ps : List Party) (m : JMap),
      (m.map Prod.fst ++ ps.map Party.id).Nodup →
      ps.foldl (fun m c => mset m c.id (safeNum c.openingBalance)) m
        = m ++ ps.map (fun c => (c.id, safeNum c.openingBalance)) := by
  intro ps
  induction ps with
  | nil => intro m _; simp
  | cons c rest ih =>
    intro m h
    have hdisj := (List.nodup_append.mp h).2.2
    have hcid : c.id ∉ m.map Prod.fst := by
      intro hmem
      exact hdisj hmem (by simp)
    have hnone : m.find? (fun p => p.1 == c.id) = none :=
      List.find?_eq_none.mpr (fun p hp hbeq =>
        hcid (List.mem_map.mpr ⟨p, hp, eq_of_beq hbeq⟩))
    rw [List.foldl_cons, mset_absent hnone, ih]
    · simp
    · simpa [List.append_assoc] using h

theorem calcReceivables_char (st : St) (h : (st.clients.map Party.id).Nodup) :
    calcReceivables st
      = (st.clients.map (fun c => safeNum c.openingBalance)).sum
        + (st.ledger.map recvDelta).sum := by
  unfold calcReceivables
  rw [initMap_eq st.clients [] (by simpa using h)]
  have hkeys : ((st.clients.map (fun c => (c.id, safeNum c.openingBalance))).map Prod.fst)
      = st.clients.map Party.id := by
    simp [List.map_map, Function.comp]
  rw [List.nil_append, sumValues_foldl_recvStep _ _ (by rw [hkeys]; exact h)]
  simp only [sumValues_eq, List.map_map]
  rfl

theorem calcPayables_char (st : St) (h : (st.vendors.map Party.id).Nodup) :
    calcPayables st
      = (st.vendors.map (fun c => safeNum c.openingBalance)).sum
        + (st.ledger.map payDelta).sum := by
  unfold calcPayables
  rw [initMap_eq st.vendors [] (by simpa using h)]
  have hkeys : ((st.vendors.map (fun c => (c.id, safeNum c.openingBalance))).map Prod.fst)
      = st.vendors.map Party.id := by
    simp [List.map_map, Function.comp]
  rw [List.nil_append, sumValues_foldl_payStep _ _ (by rw [hkeys]; exact h)]
  simp only [sumValues_eq, List.map_map]
  rfl

/-! Field lemmas for the totals loop and the report generators. -/

theorem flowStep_sales (a : Flows) (t : Entry) :
    (flowStep a t).sales = a.sales + (if t.type = "sale" then safeNum t.amount else 0) := by
  unfold flowStep
  split_ifs <;> simp_all

theorem flowStep_purchases (a : Flows) (t : Entry) :
    (flowStep a t).purchases = a.purchases + (if t.type = "purchase" then safeNum t.amount else 0) := by
  unfold flowStep
  split_ifs <;> simp_all

theorem flowStep_expenses (a : Flows) (t : Entry) :
    (flowStep a t).expenses = a.expenses + (if t.type = "expense" then safeNum t.amount else 0) := by
  unfold flowStep
  split_ifs <;> simp_all

theorem flowStep_cashIn (a : Flows) (t : Entry) :
    (flowStep a t).cashIn = a.cashIn + (if t.type = "cash_in" then safeNum t.amount else 0) := by
  unfold flowStep
  split_ifs <;> simp_all

theorem flowStep_cashOut (a : Flows) (t : Entry) :
    (flowStep a t).cashOut = a.cashOut + (if t.type = "cash_out" then safeNum t.amount else 0) := by
  unfold flowStep
  split_ifs <;> simp_all

theorem sum_filter_type {g : Entry → ℚ} (l : List Entry) (ty : String) :
    ((l.filter (fun t => t.type == ty)).map g).sum
      = (l.map (fun t => if t.type = ty then g t else 0)).sum := by
  rw [sum_filter_ite]
  refine congrArg List.sum (List.map_eq_map_iff.mpr (fun t _ => ?_))
  by_cases h : t.type = ty <;> simp [h]

theorem totals_sales_eq (st : St) : (totals st).sales = sumAmountEntries st "sale" := by
  have := foldl_proj Flows.sales flowStep _ flowStep_sales st.ledger ⟨0, 0, 0, 0, 0⟩
  unfold sumAmountEntries
  rw [sum_filter_type]
  simpa [totals] using this

theorem totals_purchases_eq (st : St) : (totals st).purchases = sumAmountEntries st "purchase" := by
  have := foldl_proj Flows.purchases flowStep _ flowStep_purchases st.ledger ⟨0, 0, 0, 0, 0⟩
  unfold sumAmountEntries
  rw [sum_filter_type]
  simpa [totals] using this

theorem totals_expenses_eq (st : St) : (totals st).expenses = sumAmountEntries st "expense" := by
  have := foldl_proj Flows.expenses flowStep _ flowStep_expenses st.ledger ⟨0, 0, 0, 0, 0⟩
  unfold sumAmountEntries
  rw [sum_filter_type]
  simpa [totals] using this

theorem totals_cashIn_eq (st : St) : (totals st).cashIn = sumAmountEntries st "cash_in" := by
  have := foldl_proj Flows.cashIn flowStep _ flowStep_cashIn st.ledger ⟨0, 0, 0, 0, 0⟩
  unfold sumAmountEntries
  rw [sum_filter_type]
  simpa [totals] using this

theorem totals_cashOut_eq (st : St) : (totals st).cashOut = sumAmountEntries st "cash_out" := by
  have := foldl_proj Flows.cashOut flowStep _ flowStep_cashOut st.ledger ⟨0, 0, 0, 0, 0⟩
  unfold sumAmountEntries
  rw [sum_filter_type]
  simpa [totals] using this

theorem sumPaid_eq (st : St) (ty : String) : sumPaid st ty = sumPaidEntries st ty := by
  unfold sumPaid sumPaidEntries
  rw [foldl_add_eq]
  simp

theorem purchasesByCategory_cogs (st : St) : purchasesByCategory st "COGS" = cogsSpecSum st := by
  unfold purchasesByCategory cogsSpecSum
  rw [foldl_add_eq, zero_add]
  refine congrArg List.sum (congrArg (List.map _) (List.filter_congr (fun t _ => ?_)))
  cases h : t.category with
  | none => simp [h]
  | some s => by_cases hs : s = "COGS" <;> simp [h, hs]

theorem totals_cogs_eq (st : St) : (totals st).cogs = cogsSpecSum st := by
  have h := purchasesByCategory_cogs st
  simpa [totals] using h

theorem totals_receivable_eq (st : St) : (totals st).receivable = calcReceivables st := rfl

theorem totals_payable_eq (st : St) : (totals st).payable = calcPayables st := rfl

theorem totals_cash_eq (st : St) :
    (totals st).cash = (sumPaidEntries st "sale" + sumAmountEntries st "cash_in")
      - (sumPaidEntries st "purchase" + sumAmountEntries st "expense"
          + sumAmountEntries st "cash_out") := by
  have hin := totals_cashIn_eq st
  have hex := totals_expenses_eq st
  have hout := totals_cashOut_eq st
  simp only [totals] at hin hex hout ⊢
  rw [sumPaid_eq, sumPaid_eq, hin, hex, hout]

theorem totals_profit_eq (st : St) :
    (totals st).profit = sumAmountEntries st "sale" - cogsSpecSum st
      - sumAmountEntries st "expense" := by
  have hs := totals_sales_eq st
  have hc := totals_cogs_eq st
  have he := totals_expenses_eq st
  simp only [totals] at hs hc he ⊢
  rw [hs, hc, he]

theorem cashFlow_char (st : St) :
    (cashFlow st).cashFromSales = sumPaidEntries st "sale" + sumAmountEntries st "cash_in"
      ∧ (cashFlow st).cashToSuppliers
          = sumPaidEntries st "purchase" + sumAmountEntries st "cash_out"
      ∧ (cashFlow st).cashToExpenses = sumAmountEntries st "expense"
      ∧ (cashFlow st).net
          = (sumPaidEntries st "sale" + sumAmountEntries st "cash_in")
            - (sumPaidEntries st "purchase" + sumAmountEntries st "cash_out")
            - sumAmountEntries st "expense" := by
  unfold cashFlow sumAmountEntries
  rw [foldl_add_eq, foldl_add_eq, foldl_add_eq, sumPaid_eq, sumPaid_eq]
  simp

/-! Characterisation of the per-party balance scan. -/

theorem calcPartyBalance_client_char (st : St) (i : String) :
    calcPartyBalance st "client" i
      = openingBalance st "client" i + (st.ledger.map (partyContrib "client" i)).sum := by
  have hstep : ∀ (bal : ℚ) (t : Entry),
      (if t.partyType ≠ some "client" ∨ t.partyId ≠ some i then bal
       else
         let b1 := if t.type = "sale" then bal + safeNum t.amount - safeNum t.paid else bal
         if t.type = "cash_in" then b1 - safeNum t.amount else b1)
        = bal + partyContrib "client" i t := by
    intro bal t
    by_cases hm : t.partyType ≠ some "client" ∨ t.partyId ≠ some i
    · have hneg : ¬(t.partyType = some "client" ∧ t.partyId = some i) := by tauto
      simp [hm, partyContrib, hneg]
    · have hp : t.partyType = some "client" ∧ t.partyId = some i := by tauto
      rw [if_neg hm]
      simp only [partyContrib, if_pos hp]
      by_cases hsale : t.type = "sale" <;> by_cases hin : t.type = "cash_in"
      · rw [hsale] at hin; simp at hin
      · simp [hsale, hin]; ring
      · simp [hsale, hin]; ring
      · simp [hsale, hin]
  show st.ledger.foldl
      (fun bal t =>
        if t.partyType ≠ some "client" ∨ t.partyId ≠ some i then bal
        else
          let b1 := if t.type = "sale" then bal + safeNum t.amount - safeNum t.paid else bal
          if t.type = "cash_in" then b1 - safeNum t.amount else b1)
      (openingBalance st "client" i)
    = openingBalance st "client" i + (st.ledger.map (partyContrib "client" i)).sum
  simpa using foldl_proj id _ (partyContrib "client" i) hstep st.ledger
    (openingBalance st "client" i)

theorem calcPartyBalance_vendor_char (st : St) (i : String) :
    calcPartyBalance st "vendor" i
      = openingBalance st "vendor" i + (st.ledger.map (partyContrib "vendor" i)).sum := by
  have hstep : ∀ (bal : ℚ) (t : Entry),
      (if t.partyType ≠ some "vendor" ∨ t.partyId ≠ some i then bal
       else
         let b1 := if t.type = "purchase" then bal + safeNum t.amount - safeNum t.paid else bal
         if t.type = "cash_out" then b1 - safeNum t.amount else b1)
        = bal + partyContrib "vendor" i t := by
    intro bal t
    by_cases hm : t.partyType ≠ some "vendor" ∨ t.partyId ≠ some i
    · have hneg : ¬(t.partyType = some "vendor" ∧ t.partyId = some i) := by tauto
      simp [hm, partyContrib, hneg]
    · have hp : t.partyType = some "vendor" ∧ t.partyId = some i := by tauto
      rw [if_neg hm]
      simp only [partyContrib, if_pos hp]
      by_cases hsale : t.type = "purchase" <;> by_cases hin : t.type = "cash_out"
      · rw [hsale] at hin; simp at hin
      · simp [hsale, hin]; ring
      · simp [hsale, hin]; ring
      · simp [hsale, hin]
  show st.ledger.foldl
      (fun bal t =>
        if t.partyType ≠ some "vendor" ∨ t.partyId ≠ some i then bal
        else
          let b1 := if t.type = "purchase" then bal + safeNum t.amount - safeNum t.paid else bal
          if t.type = "cash_out" then b1 - safeNum t.amount else b1)
      (openingBalance st "vendor" i)
    = openingBalance st "vendor" i + (st.ledger.map (partyContrib "vendor" i)).sum
  simpa using foldl_proj id _ (partyContrib "vendor" i) hstep st.ledger
    (openingBalance st "vendor" i)

theorem calcPartyBalance_other_kind (st : St) (kind i : String) (hk : kind ≠ "client") :
    calcPartyBalance st kind i = calcPartyBalance st "vendor" i := by
  simp [calcPartyBalance, hk]

/-! Lookup lemmas under unique party ids. -/

theorem find_id_eq {l : List Party} (h : (l.map Party.id).Nodup) {c : Party} (hc : c ∈ l) :
    l.find? (fun x => x.id == c.id) = some c := by
  induction l with
  | nil => simp at hc
  | cons d rest ih =>
    rw [List.map_cons, List.nodup_cons] at h
    rcases List.mem_cons.mp hc with rfl | hmem
    · rw [List.find?_cons]
      simp
    · have hne : (d.id == c.id) = false := by
        have hcid : c.id ∈ rest.map Party.id := List.mem_map.mpr ⟨c, hmem, rfl⟩
        by_contra hcon
        have hbeq : (d.id == c.id) = true := by
          cases hb : (d.id == c.id)
          · exact absurd hb hcon
          · rfl
        rw [eq_of_beq hbeq] at h
        exact h.1 hcid
      rw [List.find?_cons]
      simp only [hne]
      exact ih h.2 hmem

theorem openingBalance_client_mem {st : St} (h : (st.clients.map Party.id).Nodup)
    {c : Party} (hc : c ∈ st.clients) (hne : c.id ≠ "") :
    openingBalance st "client" c.id = safeNum c.openingBalance := by
  unfold openingBalance
  rw [if_neg (by simp [hne])]
  show (match st.clients.find? (fun x => x.id == c.id) with
        | some p => safeNum p.openingBalance
        | none => 0) = safeNum c.openingBalance
  rw [find_id_eq h hc]

theorem openingBalance_vendor_mem {st : St} (h : (st.vendors.map Party.id).Nodup)
    {c : Party} (hc : c ∈ st.vendors) (hne : c.id ≠ "") :
    openingBalance st "vendor" c.id = safeNum c.openingBalance := by
  unfold openingBalance
  rw [if_neg (by simp [hne])]
  show (match st.vendors.find? (fun x => x.id == c.id) with
        | some p => safeNum p.openingBalance
        | none => 0) = safeNum c.openingBalance
  rw [find_id_eq h hc]

theorem sum_ite_unique {l : List Party} (h : (l.map Party.id).Nodup) (p : String) (x : ℚ) :
    (l.map (fun c => if c.id = p then x else 0)).sum
      = if p ∈ l.map Party.id then x else 0 := by
  induction l with
  | nil => simp
  | cons d rest ih =>
    rw [List.map_cons, List.nodup_cons] at h
    by_cases hdp : d.id = p
    · subst hdp
      have hrest : (rest.map (fun c => if c.id = d.id then x else 0)).sum = 0 := by
        rw [ih h.2]
        simp [h.1]
      simp [hrest]
    · simp only [List.map_cons, List.sum_cons, if_neg hdp, zero_add, ih h.2]
      by_cases hm : p ∈ rest.map Party.id
      · rw [if_pos hm, if_pos (List.mem_cons.mpr (Or.inr hm))]
      · rw [if_neg hm, if_neg (by
          intro hx
          rcases List.mem_cons.mp hx with hx1 | hx2
          · exact hdp hx1.symm
          · exact hm hx2)]

/-! Per-entry decomposition of the receivable/payable deltas. -/

theorem recvDelta_decomp (st : St) (h : (st.clients.map Party.id).Nodup)
    (hne : ∀ c ∈ st.clients, c.id ≠ "") (t : Entry) :
    recvDelta t = (st.clients.map (fun c => partyContrib "client" c.id t)).sum
      + (if danglingClient st t then entryClientDelta t else 0) := by
  by_cases hpt : t.partyType = some "client"
  · by_cases hfa : falsy t.partyId
    · have h1 : recvDelta t = 0 := by simp [recvDelta, hfa]
      have h2 : st.clients.map (fun c => partyContrib "client" c.id t)
          = st.clients.map (fun _ => (0 : ℚ)) :=
        List.map_eq_map_iff.mpr (fun c hc => by
          rcases hfa with hnone | hempty
          · simp [partyContrib, hnone]
          · have : t.partyId ≠ some c.id := by
              rw [hempty]
              intro hcon
              exact hne c hc (Option.some.inj hcon).symm
            simp [partyContrib, this])
      have h3 : danglingClient st t = false := by simp [danglingClient, hfa]
      rw [h1, h2, h3]
      simp
    · rcases ho : t.partyId with _ | p
      · exact absurd (by rw [ho]; left; rfl) hfa
      have hcond : ∀ c : Party, (t.partyType = some "client" ∧ t.partyId = some c.id) ↔ c.id = p := by
        intro c
        rw [ho]
        simp [hpt, eq_comm]
      have h2 : st.clients.map (fun c => partyContrib "client" c.id t)
          = st.clients.map (fun c => if c.id = p then entryClientDelta t else 0) :=
        List.map_eq_map_iff.mpr (fun c _ => by
          by_cases hcp : c.id = p
          · rw [if_pos hcp]
            unfold partyContrib entryClientDelta
            rw [if_pos ((hcond c).mpr hcp)]
            simp
          · rw [if_neg hcp]
            unfold partyContrib
            rw [if_neg (fun hx => hcp ((hcond c).mp hx))])
      have h1 : recvDelta t = entryClientDelta t := by simp [recvDelta, hpt, hfa]
      rw [h1, h2, sum_ite_unique h p (entryClientDelta t)]
      by_cases hmem : p ∈ st.clients.map Party.id
      · have h3 : danglingClient st t = false := by
          rcases List.mem_map.mp hmem with ⟨c, hc, hcid⟩
          simp only [danglingClient, decide_eq_false_iff_not]
          intro hd
          exact hd.2.2 c hc (by rw [ho, hcid])
        rw [h3, if_pos hmem]
        simp
      · have h3 : danglingClient st t = true := by
          simp only [danglingClient, decide_eq_true_eq]
          refine ⟨hpt, hfa, fun c hc hcid => ?_⟩
          rw [ho] at hcid
          exact hmem (List.mem_map.mpr ⟨c, hc, Option.some.inj hcid⟩)
        rw [h3, if_neg hmem]
        simp
  · have h1 : recvDelta t = 0 := by simp [recvDelta, hpt]
    have h2 : st.clients.map (fun c => partyContrib "client" c.id t)
        = st.clients.map (fun _ => (0 : ℚ)) :=
      List.map_eq_map_iff.mpr (fun c _ => by simp [partyContrib, hpt])
    have h3 : danglingClient st t = false := by simp [danglingClient, hpt]
    rw [h1, h2, h3]
    simp

theorem payDelta_decomp (st : St) (h : (st.vendors.map Party.id).Nodup)
    (hne : ∀ v ∈ st.vendors, v.id ≠ "") (t : Entry) :
    payDelta t = (st.vendors.map (fun v => partyContrib "vendor" v.id t)).sum
      + (if danglingVendor st t then entryVendorDelta t else 0) := by
  by_cases hpt : t.partyType = some "vendor"
  · by_cases hfa : falsy t.partyId
    · have h1 : payDelta t = 0 := by simp [payDelta, hfa]
      have h2 : st.vendors.map (fun v => partyContrib "vendor" v.id t)
          = st.vendors.map (fun _ => (0 : ℚ)) :=
        List.map_eq_map_iff.mpr (fun c hc => by
          rcases hfa with hnone | hempty
          · simp [partyContrib, hnone]
          · have : t.partyId ≠ some c.id := by
              rw [hempty]
              intro hcon
              exact hne c hc (Option.some.inj hcon).symm
            simp [partyContrib, this])
      have h3 : danglingVendor st t = false := by simp [danglingVendor, hfa]
      rw [h1, h2, h3]
      simp
    · rcases ho : t.partyId with _ | p
      · exact absurd (by rw [ho]; left; rfl) hfa
      have hcond : ∀ c : Party, (t.partyType = some "vendor" ∧ t.partyId = some c.id) ↔ c.id = p := by
        intro c
        rw [ho]
        simp [hpt, eq_comm]
      have h2 : st.vendors.map (fun v => partyContrib "vendor" v.id t)
          = st.vendors.map (fun v => if v.id = p then entryVendorDelta t else 0) :=
        List.map_eq_map_iff.mpr (fun c _ => by
          by_cases hcp : c.id = p
          · rw [if_pos hcp]
            unfold partyContrib entryVendorDelta
            rw [if_pos ((hcond c).mpr hcp)]
            simp
          · rw [if_neg hcp]
            unfold partyContrib
            rw [if_neg (fun hx => hcp ((hcond c).mp hx))])
      have h1 : payDelta t = entryVendorDelta t := by simp [payDelta, hpt, hfa]
      rw [h1, h2, sum_ite_unique h p (entryVendorDelta t)]
      by_cases hmem : p ∈ st.vendors.map Party.id
      · have h3 : danglingVendor st t = false := by
          rcases List.mem_map.mp hmem with ⟨c, hc, hcid⟩
          simp only [danglingVendor, decide_eq_false_iff_not]
          intro hd
          exact hd.2.2 c hc (by rw [ho, hcid])
        rw [h3, if_pos hmem]
        simp
      · have h3 : danglingVendor st t = true := by
          simp only [danglingVendor, decide_eq_true_eq]
          refine ⟨hpt, hfa, fun c hc hcid => ?_⟩
          rw [ho] at hcid
          exact hmem (List.mem_map.mpr ⟨c, hc, Option.some.inj hcid⟩)
        rw [h3, if_neg hmem]
        simp
  · have h1 : payDelta t = 0 := by simp [payDelta, hpt]
    have h2 : st.vendors.map (fun v => partyContrib "vendor" v.id t)
        = st.vendors.map (fun _ => (0 : ℚ)) :=
      List.map_eq_map_iff.mpr (fun c _ => by simp [partyContrib, hpt])
    have h3 : danglingVendor st t = false := by simp [danglingVendor, hpt]
    rw [h1, h2, h3]
    simp

/-! Decomposition of the aggregate receivable/payable into per-party
balances plus dangling-entry contributions. -/

theorem calcReceivables_decomp (st : St) (h : (st.clients.map Party.id).Nodup)
    (hne : ∀ c ∈ st.clients, c.id ≠ "") :
    calcReceivables st
      = (st.clients.map (fun c => calcPartyBalance st "client" c.id)).sum
        + ((st.ledger.filter (danglingClient st)).map entryClientDelta).sum := by
  have hbal : st.clients.map (fun c => calcPartyBalance st "client" c.id)
      = st.clients.map (fun c => safeNum c.openingBalance
          + (st.ledger.map (partyContrib "client" c.id)).sum) :=
    List.map_eq_map_iff.mpr (fun c hc => by
      rw [calcPartyBalance_client_char, openingBalance_client_mem h hc (hne c hc)])
  have hdelta : st.ledger.map recvDelta
      = st.ledger.map (fun t => (st.clients.map (fun c => partyContrib "client" c.id t)).sum
          + (if danglingClient st t then entryClientDelta t else 0)) :=
    List.map_eq_map_iff.mpr (fun t _ => recvDelta_decomp st h hne t)
  rw [calcReceivables_char st h, hbal, sum_map_add_distrib, sum_map_swap, hdelta,
    sum_map_add_distrib, sum_filter_ite]
  ring

theorem calcPayables_decomp (st : St) (h : (st.vendors.map Party.id).Nodup)
    (hne : ∀ v ∈ st.vendors, v.id ≠ "") :
    calcPayables st
      = (st.vendors.map (fun v => calcPartyBalance st "vendor" v.id)).sum
        + ((st.ledger.filter (danglingVendor st)).map entryVendorDelta).sum := by
  have hbal : st.vendors.map (fun v => calcPartyBalance st "vendor" v.id)
      = st.vendors.map (fun v => safeNum v.openingBalance
          + (st.ledger.map (partyContrib "vendor" v.id)).sum) :=
    List.map_eq_map_iff.mpr (fun c hc => by
      rw [calcPartyBalance_vendor_char, openingBalance_vendor_mem h hc (hne c hc)])
  have hdelta : st.ledger.map payDelta
      = st.ledger.map (fun t => (st.vendors.map (fun v => partyContrib "vendor" v.id t)).sum
          + (if danglingVendor st t then entryVendorDelta t else 0)) :=
    List.map_eq_map_iff.mpr (fun t _ => payDelta_decomp st h hne t)
  rw [calcPayables_char st h, hbal, sum_map_add_distrib, sum_map_swap, hdelta,
    sum_map_add_distrib, sum_filter_ite]
  ring

/-! Numeric-coercion normalisation lemmas. -/

theorem safeNum_normNum (v : JVal) : safeNum (normNum v) = safeNum v := by
  cases v <;> rfl

theorem foldl_map_congr {α β : Type _} (f : α → β → α) (g : β → β)
    (h : ∀ a b, f a (g b) = f a b) :
    ∀ (l : List β) (a : α), (l.map g).foldl f a = l.foldl f a := by
  intro l
  induction l with
  | nil => intro a; rfl
  | cons x xs ih => intro a; simp only [List.map_cons, List.foldl_cons, h, ih]

theorem filter_map_comm {β : Type _} (p : β → Bool) (g : β → β)
    (h : ∀ b, p (g b) = p b) (l : List β) :
    (l.map g).filter p = (l.filter p).map g := by
  induction l with
  | nil => rfl
  | cons x xs ih => cases hx : p x <;> simp [List.filter_cons, h, hx, ih]

theorem flowStep_normEntry (a : Flows) (t : Entry) : flowStep a (normEntry t) = flowStep a t := by
  simp [flowStep, normEntry, safeNum_normNum]

theorem recvStep_normEntry (m : JMap) (t : Entry) : recvStep m (normEntry t) = recvStep m t := by
  simp [recvStep, normEntry, safeNum_normNum]

theorem payStep_normEntry (m : JMap) (t : Entry) : payStep m (normEntry t) = payStep m t := by
  simp [payStep, normEntry, safeNum_normNum]

theorem sumPaid_normSt (st : St) (ty : String) : sumPaid (normSt st) ty = sumPaid st ty := by
  unfold sumPaid
  rw [show (normSt st).ledger = st.ledger.map normEntry from rfl,
    filter_map_comm _ _ (fun t => by simp [normEntry]),
    foldl_map_congr _ _ (fun a t => by simp [normEntry, safeNum_normNum])]

theorem purchasesByCategory_normSt (st : St) (cat : String) :
    purchasesByCategory (normSt st) cat = purchasesByCategory st cat := by
  unfold purchasesByCategory
  rw [show (normSt st).ledger = st.ledger.map normEntry from rfl,
    filter_map_comm _ _ (fun t => by simp [normEntry]),
    foldl_map_congr _ _ (fun a t => by simp [normEntry, safeNum_normNum])]

theorem calcReceivables_normSt (st : St) : calcReceivables (normSt st) = calcReceivables st := by
  unfold calcReceivables
  have hinit : (st.clients.map normParty).foldl
      (fun m c => mset m c.id (safeNum c.openingBalance)) []
      = st.clients.foldl (fun m c => mset m c.id (safeNum c.openingBalance)) [] :=
    foldl_map_congr _ normParty (fun m c => by simp [normParty, safeNum_normNum]) st.clients []
  have hled : ∀ m : JMap, (st.ledger.map normEntry).foldl recvStep m = st.ledger.foldl recvStep m :=
    fun m => foldl_map_congr recvStep normEntry recvStep_normEntry st.ledger m
  rw [show (normSt st).ledger = st.ledger.map normEntry from rfl,
    show (normSt st).clients = st.clients.map normParty from rfl, hinit, hled]

theorem calcPayables_normSt (st : St) : calcPayables (normSt st) = calcPayables st := by
  unfold calcPayables
  have hinit : (st.vendors.map normParty).foldl
      (fun m c => mset m c.id (safeNum c.openingBalance)) []
      = st.vendors.foldl (fun m c => mset m c.id (safeNum c.openingBalance)) [] :=
    foldl_map_congr _ normParty (fun m c => by simp [normParty, safeNum_normNum]) st.vendors []
  have hled : ∀ m : JMap, (st.ledger.map normEntry).foldl payStep m = st.ledger.foldl payStep m :=
    fun m => foldl_map_congr payStep normEntry payStep_normEntry st.ledger m
  rw [show (normSt st).ledger = st.ledger.map normEntry from rfl,
    show (normSt st).vendors = st.vendors.map normParty from rfl, hinit, hled]

theorem find_map_normParty (l : List Party) (pid : String) :
    (l.map normParty).find? (fun x => x.id == pid)
      = (l.find? (fun x => x.id == pid)).map normParty := by
  induction l with
  | nil => rfl
  | cons d rest ih =>
    rw [List.map_cons, List.find?_cons, List.find?_cons]
    cases hd : (d.id == pid) with
    | true =>
      have : ((normParty d).id == pid) = true := by simpa [normParty] using hd
      simp [this, hd]
    | false =>
      have : ((normParty d).id == pid) = false := by simpa [normParty] using hd
      simp [this, hd, ih]

theorem openingBalance_normSt (st : St) (pt i : String) :
    openingBalance (normSt st) pt i = openingBalance st pt i := by
  unfold openingBalance
  by_cases h0 : pt = "" ∨ i = ""
  · rw [if_pos h0, if_pos h0]
  · rw [if_neg h0, if_neg h0]
    by_cases hc : pt = "client"
    · rw [if_pos hc, if_pos hc]
      show (match (normSt st).clients.find? (fun x => x.id == i) with
            | some p => safeNum p.openingBalance
            | none => 0)
        = (match st.clients.find? (fun x => x.id == i) with
            | some p => safeNum p.openingBalance
            | none => 0)
      rw [show (normSt st).clients = st.clients.map normParty from rfl, find_map_normParty]
      cases st.clients.find? (fun x => x.id == i) <;> simp [normParty, safeNum_normNum]
    · rw [if_neg hc, if_neg hc]
      show (match (normSt st).vendors.find? (fun x => x.id == i) with
            | some p => safeNum p.openingBalance
            | none => 0)
        = (match st.vendors.find? (fun x => x.id == i) with
            | some p => safeNum p.openingBalance
            | none => 0)
      rw [show (normSt st).vendors = st.vendors.map normParty from rfl, find_map_normParty]
      cases st.vendors.find? (fun x => x.id == i) <;> simp [normParty, safeNum_normNum]

theorem partyContrib_normEntry (pt i : String) (t : Entry) :
    partyContrib pt i (normEntry t) = partyContrib pt i t := by
  simp [partyContrib, normEntry, safeNum_normNum]

theorem calcPartyBalance_normSt (st : St) (kind i : String) :
    calcPartyBalance (normSt st) kind i = calcPartyBalance st kind i := by
  by_cases hk : kind = "client"
  · subst hk
    rw [calcPartyBalance_client_char, calcPartyBalance_client_char, openingBalance_normSt]
    congr 1
    rw [show (normSt st).ledger = st.ledger.map normEntry from rfl, List.map_map]
    exact congrArg List.sum (List.map_eq_map_iff.mpr
      (fun t _ => partyContrib_normEntry "client" i t))
  · rw [calcPartyBalance_other_kind (normSt st) kind i hk,
      calcPartyBalance_other_kind st kind i hk,
      calcPartyBalance_vendor_char, calcPartyBalance_vendor_char, openingBalance_normSt]
    congr 1
    rw [show (normSt st).ledger = st.ledger.map normEntry from rfl, List.map_map]
    exact congrArg List.sum (List.map_eq_map_iff.mpr
      (fun t _ => partyContrib_normEntry "vendor" i t))

theorem totals_normSt (st : St) : totals (normSt st) = totals st := by
  have hflow : (normSt st).ledger.foldl flowStep ⟨0, 0, 0, 0, 0⟩
      = st.ledger.foldl flowStep ⟨0, 0, 0, 0, 0⟩ :=
    foldl_map_congr flowStep normEntry flowStep_normEntry st.ledger _
  simp only [totals, hflow, sumPaid_normSt, purchasesByCategory_normSt,
    calcReceivables_normSt, calcPayables_normSt]

theorem cashFlow_normSt (st : St) : cashFlow (normSt st) = cashFlow st := by
  have hfe : ∀ ty : String,
      ((normSt st).ledger.filter (fun t => t.type == ty)).foldl (fun a t => a + safeNum t.amount) 0
        = (st.ledger.filter (fun t => t.type == ty)).foldl (fun a t => a + safeNum t.amount) 0 := by
    intro ty
    rw [show (normSt st).ledger = st.ledger.map normEntry from rfl,
      filter_map_comm _ _ (fun t => by simp [normEntry]),
      foldl_map_congr _ _ (fun a t => by simp [normEntry, safeNum_normNum])]
  simp only [cashFlow, sumPaid_normSt, hfe]

theorem balanceSheet_normSt (st : St) : balanceSheet (normSt st) = balanceSheet st := by
  simp only [balanceSheet, totals_normSt]

/-! Lemmas about deleting a party. -/

theorem find?_eraseP_none {l : List Party} (i : String) (h : (l.map Party.id).Nodup) :
    (l.eraseP (fun x => x.id == i)).find? (fun x => x.id == i) = none := by
  induction l with
  | nil => simp
  | cons d rest ih =>
    rw [List.map_cons, List.nodup_cons] at h
    by_cases hd : (d.id == i) = true
    · have he : (d :: rest).eraseP (fun x => x.id == i) = rest :=
        List.eraseP_cons_of_pos hd
      rw [he]
      refine List.find?_eq_none.mpr (fun x hx hbeq => ?_)
      rw [eq_of_beq hd] at h
      exact h.1 (List.mem_map.mpr ⟨x, hx, eq_of_beq hbeq⟩)
    · have hd' : (d.id == i) = false := by
        cases hb : (d.id == i)
        · rfl
        · exact absurd hb hd
      have he : (d :: rest).eraseP (fun x => x.id == i)
          = d :: rest.eraseP (fun x => x.id == i) :=
        List.eraseP_cons_of_neg (by simp [hd'])
      rw [he, List.find?_cons]
      simp only [hd']
      exact ih h.2

theorem openingBalance_delete_client (st : St) (i : String)
    (h : (st.clients.map Party.id).Nodup) :
    openingBalance (deleteParty st "client" i) "client" i = 0 := by
  by_cases hi : i = ""
  · simp [openingBalance, hi]
  · unfold openingBalance
    rw [if_neg (by simp [hi])]
    show (match (deleteParty st "client" i).clients.find? (fun x => x.id == i) with
          | some p => safeNum p.openingBalance
          | none => (0 : ℚ)) = (0 : ℚ)
    have hcl : (deleteParty st "client" i).clients
        = st.clients.eraseP (fun x => x.id == i) := by
      simp [deleteParty]
    rw [hcl, find?_eraseP_none i h]

theorem openingBalance_delete_vendor (st : St) (i : String)
    (h : (st.vendors.map Party.id).Nodup) :
    openingBalance (deleteParty st "vendor" i) "vendor" i = 0 := by
  by_cases hi : i = ""
  · simp [openingBalance, hi]
  · unfold openingBalance
    rw [if_neg (by simp [hi])]
    show (match (if ("vendor" : String) = "client" then (deleteParty st "vendor" i).clients
            else (deleteParty st "vendor" i).vendors).find? (fun x => x.id == i) with
          | some p => safeNum p.openingBalance
          | none => (0 : ℚ)) = (0 : ℚ)
    have hcl : (if ("vendor" : String) = "client" then (deleteParty st "vendor" i).clients
        else (deleteParty st "vendor" i).vendors)
        = st.vendors.eraseP (fun x => x.id == i) := by
      simp [deleteParty]
    rw [hcl, find?_eraseP_none i h]

/-! Claim theorems. -/

/-- C1: for every snapshot, the cash figure produced by `totals()` equals
the net figure produced by `cashFlow()`. -/
theorem C1_totals_cash_eq_cashFlow_net (st : St) :
    (totals st).cash = (cashFlow st).net := by
  rw [totals_cash_eq st, (cashFlow_char st).2.2.2]
  ring

/-- C2 counterexample: a snapshot holding a single client-tagged sale whose
`partyId` matches no client has `totals().receivable = 100` while the sum of
`balanceOf('client', c.id)` over its (empty) client list is `0`. -/
theorem C2_counterexample :
    (totals stDangle).receivable
      ≠ (stDangle.clients.map (fun c => calcPartyBalance stDangle "client" c.id)).sum := by
  simp +decide [totals, calcReceivables, recvStep, mset, mget, sumValues, safeNum,
    stDangle, falsy]

/-- C2 (amended): when party ids are unique and non-empty within each
collection and every client-tagged (vendor-tagged) ledger entry with a
truthy `partyId` references an existing client (vendor), the receivable
total is the sum of the client balances and the payable total the sum of
the vendor balances. -/
theorem C2_receivable_additivity (st : St)
    (hc : (st.clients.map Party.id).Nodup) (hv : (st.vendors.map Party.id).Nodup)
    (hce : ∀ c ∈ st.clients, c.id ≠ "") (hve : ∀ v ∈ st.vendors, v.id ≠ "")
    (hdc : ∀ t ∈ st.ledger, danglingClient st t = false)
    (hdv : ∀ t ∈ st.ledger, danglingVendor st t = false) :
    (totals st).receivable
        = (st.clients.map (fun c => calcPartyBalance st "client" c.id)).sum
      ∧ (totals st).payable
        = (st.vendors.map (fun v => calcPartyBalance st "vendor" v.id)).sum := by
  constructor
  · rw [totals_receivable_eq, calcReceivables_decomp st hc hce,
      List.filter_eq_nil_iff.mpr (fun t ht => by simp [hdc t ht])]
    simp
  · rw [totals_payable_eq, calcPayables_decomp st hv hve,
      List.filter_eq_nil_iff.mpr (fun t ht => by simp [hdv t ht])]
    simp

/-- C2 witness: the amended additivity at a concrete well-formed snapshot. -/
theorem C2_witness :
    (totals stOk).receivable
        = (stOk.clients.map (fun c => calcPartyBalance stOk "client" c.id)).sum
      ∧ (totals stOk).payable
        = (stOk.vendors.map (fun v => calcPartyBalance stOk "vendor" v.id)).sum :=
  C2_receivable_additivity stOk (by decide) (by decide) (by decide) (by decide)
    (by decide) (by decide)

/-- C3 counterexample: after deleting the client `"x"` referenced by a
partially paid sale (amount 100, paid 40), `balanceOf('client', "x")`
returns 60, not 0 as the claim states. -/
theorem C3_counterexample :
    calcPartyBalance (deleteParty stC3 "client" "x") "client" "x" = 60
      ∧ (60 : ℚ) ≠ 0 := by
  constructor
  · simp +decide [calcPartyBalance, openingBalance, deleteParty, safeNum, stC3]
    norm_num
  · norm_num

/-- C3 (amended): after a party is removed, `balanceOf` for the missing id
is recomputed from an opening balance of 0 — it still accumulates the
matching entries' contributions, so it need not be 0 — while every
type-keyed aggregate of `totals()` (and the derived cash, COGS and profit
figures) is unchanged; nothing throws (all operations are total). -/
theorem C3_dangling_party_tolerance (st : St) (i : String)
    (hc : (st.clients.map Party.id).Nodup) (hv : (st.vendors.map Party.id).Nodup) :
    calcPartyBalance (deleteParty st "client" i) "client" i
        = (st.ledger.map (partyContrib "client" i)).sum
      ∧ calcPartyBalance (deleteParty st "vendor" i) "vendor" i
        = (st.ledger.map (partyContrib "vendor" i)).sum
      ∧ (∀ kind : String,
          (totals (deleteParty st kind i)).sales = (totals st).sales
            ∧ (totals (deleteParty st kind i)).purchases = (totals st).purchases
            ∧ (totals (deleteParty st kind i)).expenses = (totals st).expenses
            ∧ (totals (deleteParty st kind i)).cashIn = (totals st).cashIn
            ∧ (totals (deleteParty st kind i)).cashOut = (totals st).cashOut
            ∧ (totals (deleteParty st kind i)).cogs = (totals st).cogs
            ∧ (totals (deleteParty st kind i)).cash = (totals st).cash
            ∧ (totals (deleteParty st kind i)).profit = (totals st).profit) := by
  have hled : ∀ kind : String, (deleteParty st kind i).ledger = st.ledger := by
    intro kind
    unfold deleteParty
    split <;> rfl
  have hamt : ∀ (kind ty : String),
      sumAmountEntries (deleteParty st kind i) ty = sumAmountEntries st ty := by
    intro kind ty
    unfold sumAmountEntries
    rw [hled]
  have hpaid : ∀ (kind ty : String),
      sumPaidEntries (deleteParty st kind i) ty = sumPaidEntries st ty := by
    intro kind ty
    unfold sumPaidEntries
    rw [hled]
  have hcogs : ∀ kind : String, cogsSpecSum (deleteParty st kind i) = cogsSpecSum st := by
    intro kind
    unfold cogsSpecSum
    rw [hled]
  refine ⟨?_, ?_, fun kind => ?_⟩
  · rw [calcPartyBalance_client_char, openingBalance_delete_client st i hc, zero_add,
      hled "client"]
  · rw [calcPartyBalance_vendor_char, openingBalance_delete_vendor st i hv, zero_add,
      hled "vendor"]
  · refine ⟨?_, ?_, ?_, ?_, ?_, ?_, ?_, ?_⟩
    · rw [totals_sales_eq, totals_sales_eq, hamt]
    · rw [totals_purchases_eq, totals_purchases_eq, hamt]
    · rw [totals_expenses_eq, totals_expenses_eq, hamt]
    · rw [totals_cashIn_eq, totals_cashIn_eq, hamt]
    · rw [totals_cashOut_eq, totals_cashOut_eq, hamt]
    · rw [totals_cogs_eq, totals_cogs_eq, hcogs]
    · rw [totals_cash_eq, totals_cash_eq, hamt, hamt, hpaid, hpaid, hamt]
    · rw [totals_profit_eq, totals_profit_eq, hamt, hcogs, hamt]

/-- C3 witness: the amended tolerance at the concrete snapshot `stC3`,
whose deleted client is referenced by a partially paid sale. -/
theorem C3_witness :
    calcPartyBalance (deleteParty stC3 "client" "x") "client" "x"
        = (stC3.ledger.map (partyContrib "client" "x")).sum
      ∧ calcPartyBalance (deleteParty stC3 "vendor" "x") "vendor" "x"
        = (stC3.ledger.map (partyContrib "vendor" "x")).sum
      ∧ (∀ kind : String,
          (totals (deleteParty stC3 kind "x")).sales = (totals stC3).sales
            ∧ (totals (deleteParty stC3 kind "x")).purchases = (totals stC3).purchases
            ∧ (totals (deleteParty stC3 kind "x")).expenses = (totals stC3).expenses
            ∧ (totals (deleteParty stC3 kind "x")).cashIn = (totals stC3).cashIn
            ∧ (totals (deleteParty stC3 kind "x")).cashOut = (totals stC3).cashOut
            ∧ (totals (deleteParty stC3 kind "x")).cogs = (totals stC3).cogs
            ∧ (totals (deleteParty stC3 kind "x")).cash = (totals stC3).cash
            ∧ (totals (deleteParty stC3 kind "x")).profit = (totals stC3).profit) :=
  C3_dangling_party_tolerance stC3 "x" (by decide) (by decide)

/-- C4 counterexample: with a client whose id is the empty string and
opening balance 5, `balanceOf('client', "")` returns 0 (the falsiness guard
fires before the opening-balance lookup) while the claim's formula yields
the party's opening balance 5. -/
theorem C4_counterexample :
    calcPartyBalance stEmptyId "client" "" ≠ specPartyBalance stEmptyId "client" "" := by
  simp +decide [calcPartyBalance, openingBalance, specPartyBalance, partyContrib,
    safeNum, stEmptyId]

/-- C4 (amended): for every partyType and every non-empty partyId, the
balance equals the party's opening balance (0 if not found) plus the
matching entries' contributions — `+(amount − paid)` for credit entries,
`−amount` for cash entries, everything else ignored — and the result is
invariant under any permutation of the ledger (and is reported as-is,
negative values included). -/
theorem C4_balance_formula (st : St) (kind i : String) (hi : i ≠ "") :
    calcPartyBalance st kind i = specPartyBalance st kind i
      ∧ ∀ l : List Entry, l.Perm st.ledger →
          calcPartyBalance { st with ledger := l } kind i = calcPartyBalance st kind i := by
  constructor
  · by_cases hk : kind = "client"
    · subst hk
      rw [calcPartyBalance_client_char]
      unfold specPartyBalance openingBalance
      rw [if_neg (by simp [hi])]
      simp
    · rw [calcPartyBalance_other_kind st kind i hk, calcPartyBalance_vendor_char]
      unfold specPartyBalance openingBalance
      rw [if_neg (by simp [hi])]
      simp [hk]
  · intro l hperm
    by_cases hk : kind = "client"
    · subst hk
      rw [calcPartyBalance_client_char, calcPartyBalance_client_char]
      rw [show openingBalance { st with ledger := l } "client" i
          = openingBalance st "client" i from rfl]
      exact congrArg _ (List.Perm.sum_eq (hperm.map _))
    · rw [calcPartyBalance_other_kind _ kind i hk, calcPartyBalance_other_kind st kind i hk,
        calcPartyBalance_vendor_char, calcPartyBalance_vendor_char]
      rw [show openingBalance { st with ledger := l } "vendor" i
          = openingBalance st "vendor" i from rfl]
      exact congrArg _ (List.Perm.sum_eq (hperm.map _))

/-- C4 witness: the amended formula and order-independence at a concrete
snapshot, with the ledger reversed as the concrete permutation. -/
theorem C4_witness :
    ("c1" : String) ≠ ""
      ∧ calcPartyBalance stOk "client" "c1" = specPartyBalance stOk "client" "c1"
      ∧ calcPartyBalance { stOk with ledger := stOk.ledger.reverse } "client" "c1"
          = calcPartyBalance stOk "client" "c1" :=
  ⟨by decide,
    (C4_balance_formula stOk "client" "c1" (by decide)).1,
    (C4_balance_formula stOk "client" "c1" (by decide)).2 stOk.ledger.reverse
      (List.reverse_perm stOk.ledger)⟩

/-- C5: totals() returns sales, purchases and expenses as sums of `amount`
over entries of the matching type, cashIn/cashOut as sums of `amount` over
cash entries, and cash as settled sales plus receipts minus settled
purchases, expenses and payments. -/
theorem C5_totals_flow_sums (st : St) :
    (totals st).sales = sumAmountEntries st "sale"
      ∧ (totals st).purchases = sumAmountEntries st "purchase"
      ∧ (totals st).expenses = sumAmountEntries st "expense"
      ∧ (totals st).cashIn = sumAmountEntries st "cash_in"
      ∧ (totals st).cashOut = sumAmountEntries st "cash_out"
      ∧ (totals st).cash = (sumPaidEntries st "sale" + sumAmountEntries st "cash_in")
          - (sumPaidEntries st "purchase" + sumAmountEntries st "expense"
              + sumAmountEntries st "cash_out") :=
  ⟨totals_sales_eq st, totals_purchases_eq st, totals_expenses_eq st, totals_cashIn_eq st,
    totals_cashOut_eq st, totals_cash_eq st⟩

/-- C6: totals().cogs sums `amount` over purchase entries whose category is
exactly the literal "COGS" (missing or different categories excluded), and
profit is sales − cogs − expenses, so non-COGS purchases do not reduce
profit. -/
theorem C6_cogs_profit (st : St) :
    (totals st).cogs = cogsSpecSum st
      ∧ (totals st).profit
          = sumAmountEntries st "sale" - cogsSpecSum st - sumAmountEntries st "expense" :=
  ⟨totals_cogs_eq st, totals_profit_eq st⟩

/-- C7: `safeNum` returns the numeric value of a finite number and 0 for
anything else, and consequently every core operation computes the same
(total, never-throwing) result when each malformed numeric field is
replaced by the 0 it is coerced to. -/
theorem C7_numeric_coercion (st : St) :
    (∀ q : ℚ, safeNum (JVal.fin q) = q)
      ∧ safeNum JVal.nonfin = 0
      ∧ totals (normSt st) = totals st
      ∧ cashFlow (normSt st) = cashFlow st
      ∧ balanceSheet (normSt st) = balanceSheet st
      ∧ ∀ kind i : String, calcPartyBalance (normSt st) kind i = calcPartyBalance st kind i :=
  ⟨fun _ => rfl, rfl, totals_normSt st, cashFlow_normSt st, balanceSheet_normSt st,
    fun kind i => calcPartyBalance_normSt st kind i⟩

/-- C8 (code bug): `importData` only validates `company`, `users` and
`ledger`; a snapshot missing `clients` and `vendors` passes the check and
replaces the state, so the claim's required rejection does not happen. -/
theorem C8_import_accepts_missing_clients :
    importData rawCur rawNoClients = (rawNoClients, none)
      ∧ rawNoClients.clients = none ∧ rawNoClients.vendors = none := by
  refine ⟨?_, rfl, rfl⟩
  simp [importData, rawNoClients]

/-- C9: with an empty ledger, receivable is the sum of the clients' opening
balances and the flow totals sales, purchases, expenses and cash are 0
(party ids are unique per the data model's `id` contract). -/
theorem C9_zero_ledger_baseline (st : St) (hl : st.ledger = [])
    (h : (st.clients.map Party.id).Nodup) :
    (totals st).receivable = (st.clients.map (fun c => safeNum c.openingBalance)).sum
      ∧ (totals st).sales = 0 ∧ (totals st).purchases = 0
      ∧ (totals st).expenses = 0 ∧ (totals st).cash = 0 := by
  refine ⟨?_, ?_, ?_, ?_, ?_⟩
  · rw [totals_receivable_eq, calcReceivables_char st h, hl]
    simp
  · rw [totals_sales_eq]
    unfold sumAmountEntries
    rw [hl]
    rfl
  · rw [totals_purchases_eq]
    unfold sumAmountEntries
    rw [hl]
    rfl
  · rw [totals_expenses_eq]
    unfold sumAmountEntries
    rw [hl]
    rfl
  · rw [totals_cash_eq]
    unfold sumPaidEntries sumAmountEntries
    rw [hl]
    norm_num

/-- C9 witness: the zero-ledger baseline at a concrete snapshot with two
clients and one vendor. -/
theorem C9_witness :
    (totals stNoLedger).receivable
        = (stNoLedger.clients.map (fun c => safeNum c.openingBalance)).sum
      ∧ (totals stNoLedger).sales = 0 ∧ (totals stNoLedger).purchases = 0
      ∧ (totals stNoLedger).expenses = 0 ∧ (totals stNoLedger).cash = 0 :=
  C9_zero_ledger_baseline stNoLedger rfl (by decide)

/-- C10 counterexample: a client-tagged sale with the non-null but empty
`partyId` `""` matching no client contributes 100 (amount − paid) per the
claim, yet `totals().receivable` is 0 — the scan skips falsy ids. -/
theorem C10_counterexample :
    eEmptyPid.partyType = some "client"
      ∧ eEmptyPid.partyId ≠ none
      ∧ (∀ c ∈ stEmptyPid.clients, some c.id ≠ eEmptyPid.partyId)
      ∧ entryClientDelta eEmptyPid = 100
      ∧ (totals stEmptyPid).receivable = 0 := by
  refine ⟨rfl, by decide, by decide, ?_, ?_⟩
  · simp +decide [entryClientDelta, safeNum, eEmptyPid]
  · simp +decide [totals, calcReceivables, recvStep, mset, mget, sumValues, safeNum,
    stEmptyPid, eEmptyPid, falsy]

/-- C10 (amended): with unique, non-empty party ids, the receivable total
is the sum of the client balances plus, over every client-tagged entry
whose truthy (non-null, non-empty) `partyId` matches no client, that
entry's contribution accumulated from an implicit opening balance of 0;
analogously for the payable total and vendors. -/
theorem C10_dangling_contributions (st : St)
    (hc : (st.clients.map Party.id).Nodup) (hce : ∀ c ∈ st.clients, c.id ≠ "")
    (hv : (st.vendors.map Party.id).Nodup) (hve : ∀ v ∈ st.vendors, v.id ≠ "") :
    (totals st).receivable
        = (st.clients.map (fun c => calcPartyBalance st "client" c.id)).sum
          + ((st.ledger.filter (danglingClient st)).map entryClientDelta).sum
      ∧ (totals st).payable
        = (st.vendors.map (fun v => calcPartyBalance st "vendor" v.id)).sum
          + ((st.ledger.filter (danglingVendor st)).map entryVendorDelta).sum :=
  ⟨by rw [totals_receivable_eq]; exact calcReceivables_decomp st hc hce,
    by rw [totals_payable_eq]; exact calcPayables_decomp st hv hve⟩

/-- C10 witness: the amended decomposition at a concrete snapshot mixing
resolving and dangling references. -/
theorem C10_witness :
    (totals stMix).receivable
        = (stMix.clients.map (fun c => calcPartyBalance stMix "client" c.id)).sum
          + ((stMix.ledger.filter (danglingClient stMix)).map entryClientDelta).sum
      ∧ (totals stMix).payable
        = (stMix.vendors.map (fun v => calcPartyBalance stMix "vendor" v.id)).sum
          + ((stMix.ledger.filter (danglingVendor stMix)).map entryVendorDelta).sum :=
  C10_dangling_contributions stMix (by decide) (by decide) (by decide) (by decide)

end App
